import Mathlib

/-!
Verification of the chunking / embedding / pipeline core of the
AI-Powered-AudioBook-Generator repository.

The Python sources are embedded shallowly:

* `pySplit` models Python's `str.split()` (split on whitespace runs,
  discarding empty fields).
* `joinSp` models `' '.join(...)`.
* `pySlice` models Python list slicing `l[a:b]` (negative indices clamp
  against the length).
* `split_into_chunks_loop` models the `while start < len(words)` loop of
  `embeddings.py::split_into_chunks`.  The loop is given as a fuel-indexed
  function returning `Option`: `none` means the fuel ran out, and a separate
  lemma shows that for a non-positive step the loop returns `none` for every
  fuel, i.e. the Python loop does not terminate.  Whenever the Python loop
  terminates (empty word list, or positive step), fuel `words.length + 1`
  is enough, so `split_into_chunks` returns `some` exactly on the
  terminating runs with the value the Python function returns.
-/

/-- Helper for `pySplit`: scan the character list, accumulating the current
word (in reverse) and emitting maximal runs of non-whitespace characters. -/
def splitWsAux : List Char → List Char → List String
  | [], acc => if acc.isEmpty then [] else [String.mk acc.reverse]
  | c :: cs, acc =>
    if c.isWhitespace then
      (if acc.isEmpty then [] else [String.mk acc.reverse]) ++ splitWsAux cs []
    else
      splitWsAux cs (c :: acc)

/-- Model of Python `text.split()`: split on whitespace runs, drop empty
fields. -/
def pySplit (s : String) : List String :=
  splitWsAux s.data []

/-- Model of Python `' '.join(ws)`. -/
def joinSp : List String → String
  | [] => ""
  | [w] => w
  | w :: ws => w ++ " " ++ joinSp ws

/-- Model of Python slicing `l[a:b]` (step 1): negative bounds count from the
end, and both bounds clamp into `[0, l.length]`. -/
def pySlice {α : Type u} (l : List α) (a b : ℤ) : List α :=
  let n : ℤ := l.length
  let a' : ℤ := if a < 0 then max 0 (n + a) else min a n
  let b' : ℤ := if b < 0 then max 0 (n + b) else min b n
  (l.take b'.toNat).drop a'.toNat

/-- The `while start < len(words)` loop of `split_into_chunks`
(`embeddings.py`, lines 55-61), with explicit fuel.  Each iteration appends
`' '.join(words[start:start+chunk_size])` and advances `start` by
`chunk_size - overlap`; `none` means the fuel was exhausted. -/
def split_into_chunks_loop (words : List String) (chunk_size overlap : ℤ) :
    ℕ → ℤ → Option (List String)
  | 0, _ => none
  | fuel + 1, start =>
    if start < (words.length : ℤ) then
      match split_into_chunks_loop words chunk_size overlap fuel
          (start + (chunk_size - overlap)) with
      | none => none
      | some rest => some (joinSp (pySlice words start (start + chunk_size)) :: rest)
    else some []

/-- `embeddings.py::split_into_chunks`: split `text` into words and run the
chunking loop from `start = 0`.  Fuel `words.length + 1` is sufficient for
every terminating run of the Python loop so `none` is returned exactly when the Python loop does not terminate. -/
def split_into_chunks (text : String) (chunk_size overlap : ℤ) :
    Option (List String) :=
  let words := pySplit text
  split_into_chunks_loop words chunk_size overlap (words.length + 1) 0

/-- The same loop at the word-slice level (before `' '.join`), used to reason
about word counts and offsets of the produced segments. -/
def chunk_slices_loop (words : List String) (chunk_size overlap : ℤ) :
    ℕ → ℤ → Option (List (List String))
  | 0, _ => none
  | fuel + 1, start =>
    if start < (words.length : ℤ) then
      match chunk_slices_loop words chunk_size overlap fuel
          (start + (chunk_size - overlap)) with
      | none => none
      | some rest => some (pySlice words start (start + chunk_size) :: rest)
    else some []

/-- Word count of a string under Python `str.split()` semantics. -/
def wordCount (s : String) : ℕ :=
  (pySplit s).length

/-- Concatenation of the non-overlapping regions of the chunks: the first
`step` words of every chunk except the last, then the last chunk whole. -/
def reconstruct (step : ℕ) : List (List String) → List String
  | [] => []
  | [c] => c
  | c :: rest => c.take step ++ reconstruct step rest

/-- The overlap property exactly as the spec states it: every pair of
consecutive segments shares exactly `ov` words (the trailing `ov` words of the
earlier segment are the leading `ov` words of the later one). -/
def overlapExactB (cs ov : ℕ) : List (List String) → Bool
  | c1 :: c2 :: rest =>
    (c1.drop (cs - ov) == c2.take ov) && ((c1.drop (cs - ov)).length == ov) &&
      overlapExactB cs ov (c2 :: rest)
  | _ => true

/-- The overlap property the code actually satisfies: consecutive segments
share exactly `min ov (length of the later segment)` words, which is exactly
`ov` whenever the earlier segment has the full `cs` words. -/
def overlapSpecB (cs ov : ℕ) : List (List String) → Bool
  | c1 :: c2 :: rest =>
    (c1.drop (cs - ov) == c2.take (c1.length - (cs - ov))) &&
      ((c1.length - (cs - ov)) == min ov c2.length) &&
      (!(c1.length == cs) || ((c1.length - (cs - ov)) == ov)) &&
      overlapSpecB cs ov (c2 :: rest)
  | _ => true

/-- Structure of the windows produced by the chunking loop: starting at word
offset `start`, each produced chunk is the `cs`-word window at the current
offset and the remaining chunks are the windows from `start + (cs - ov)` on;
the list ends exactly when the offset reaches the word count. -/
def windowShape (words : List String) (cs ov : ℕ) : ℕ → List (List String) → Prop
  | start, [] => words.length ≤ start
  | start, c :: rest =>
    start < words.length ∧ c = (words.drop start).take cs ∧
      windowShape words cs ov (start + (cs - ov)) rest

/-- A concrete 900-word text used for the 900/400/50 chunking scenario. -/
def chunkDemoText : String :=
  joinSp (List.replicate 900 "w")

/-- Model of Python `re.sub(regex-whitespace-run, single-space, text)`:
collapse every whitespace run to a single space.  The `inWs` flag records
whether the previous character was part of a whitespace run. -/
def squeezeWsAux : List Char → Bool → List Char
  | [], _ => []
  | c :: cs, inWs =>
    if c.isWhitespace then
      if inWs then squeezeWsAux cs true else ' ' :: squeezeWsAux cs true
    else c :: squeezeWsAux cs false

/-- Strip leading and trailing whitespace from a character list. -/
def trimChars (l : List Char) : List Char :=
  ((l.dropWhile Char.isWhitespace).reverse.dropWhile Char.isWhitespace).reverse

/-- Model of Python `s.strip()`. -/
def pyStrip (s : String) : String :=
  String.mk (trimChars s.data)

/-- `re.sub` whitespace normalisation followed by `.strip()`
(`embeddings.py`, line 31). -/
def normText (s : String) : String :=
  String.mk (trimChars (squeezeWsAux s.data false))

/-- Split the (already whitespace-normalised) text after every `.`, `!` or `?`
that is followed by whitespace, modelling `re.split` on the sentence-boundary
pattern of `embeddings.py`, line 34.  `acc` holds the current sentence
reversed. -/
def splitSentAux : List Char → List Char → List String
  | [], acc => [String.mk acc.reverse]
  | c :: cs, acc =>
    if c = ' ' &&
        (match acc with
         | p :: _ => p = '.' || p = '!' || p = '?'
         | [] => false) then
      String.mk acc.reverse :: splitSentAux cs []
    else
      splitSentAux cs (c :: acc)

/-- `embeddings.py::split_into_sentences`: normalise whitespace, split on
sentence boundaries, strip each piece and keep those longer than 10
characters. -/
def split_into_sentences (text : String) : List String :=
  let t := normText text
  ((splitSentAux t.data []).map pyStrip).filter (fun s => 10 < s.length)

/-- The message of the `RuntimeError` raised by `generate_embeddings` when the
sentence-transformers library is missing (`embeddings.py`, lines 85-89). -/
def sentenceTransformersMsg : String :=
  "sentence-transformers not installed. Install with:\npip install sentence-transformers"

/-- `embeddings.py::generate_embeddings`, restricted to its observable text
processing: `hasST` models the module-level `HAS_SENTENCE_TRANSFORMERS` flag;
the embedding model call itself is external and returns one vector per
segment, so the function is modelled as producing the segment list.  The
outer `Option` is `none` when the chunking loop does not terminate; the inner
`Except` carries the raised error message. -/
def generate_embeddings (hasST : Bool) (text : String) (split_method : String)
    (chunk_size overlap : ℤ) : Option (Except String (List String)) :=
  if hasST = false then
    some (Except.error sentenceTransformersMsg)
  else if split_method = "sentences" then
    some (Except.ok (split_into_sentences text))
  else if split_method = "chunks" then
    match split_into_chunks text chunk_size overlap with
    | none => none
    | some segs => some (Except.ok segs)
  else
    some (Except.error ("Unknown split_method: " ++ split_method))

/-- Observable outcome of `embeddings.py::save_embeddings_csv`: the file
content written by `df.to_csv` (header plus one row per pair; `none` when the
write never happened) and the exception the call raised, if any.  Embedding
components are modelled as rationals; their textual encoding in the CSV cell
is not modelled. -/
structure SaveCsvResult where
  written : Option ((String × String) × List (String × List ℚ))
  raised : Option String
  deriving DecidableEq

/-- `embeddings.py::save_embeddings_csv`: build the two-column dataframe and
write it, then log row count, output path and embedding dimension.  The
dimension log evaluates `len(embedding_lists[0])`, which raises `IndexError`
when `embeddings` is empty — after the file has already been written.
Constructing the dataframe itself raises when the two columns have different
lengths, before anything is written. -/
def save_embeddings_csv (text_segments : List String)
    (embeddings : List (List ℚ)) : SaveCsvResult :=
  if text_segments.length ≠ embeddings.length then
    { written := none,
      raised := some "ValueError: All arrays must be of the same length" }
  else
    { written := some (("text", "embedding"), text_segments.zip embeddings),
      raised :=
        if embeddings.isEmpty then some "IndexError: list index out of range"
        else none }

/-- Modelled from the spec: the loader half of the persistence adapter —
`vectordb_save.save_to_vectordb`, repository code imported and called with
`csv_path` by `frontend.py` but whose source file is missing — loads an
existing persisted table back into its ordered (text, embedding) rows.  Per
the spec the embedding column's textual encoding is round-trippable
("parseable back into that exact ordered list"), so at this file's
abstraction level — where `save_embeddings_csv` records each cell as the
list of numbers its text encodes — loading a written table returns exactly
its data rows, in order. -/
def load_embeddings_csv (file : (String × String) × List (String × List ℚ)) :
    List (String × List ℚ) :=
  file.2

/-- `pipeline.py`, lines 98-103: texts longer than 5000 characters are cut to
their first 5000 characters with `"..."` appended before being handed to the
TTS engine. -/
def truncateForTTS (final_text : String) : String :=
  if 5000 < final_text.length then String.mk (final_text.data.take 5000) ++ "..."
  else final_text

lemma split_into_chunks_loop_eq_map_join (words : List String)
    (chunk_size overlap : ℤ) :
    ∀ (fuel : ℕ) (start : ℤ),
      split_into_chunks_loop words chunk_size overlap fuel start =
        (chunk_slices_loop words chunk_size overlap fuel start).map
          (List.map joinSp) := by
  intro fuel
  induction fuel with
  | zero => intro start; rfl
  | succ n ih =>
    intro start
    simp only [split_into_chunks_loop, chunk_slices_loop, ih]
    by_cases h : start < (words.length : ℤ)
    · simp only [if_pos h]
      cases chunk_slices_loop words chunk_size overlap n
          (start + (chunk_size - overlap)) with
      | none => rfl
      | some rest => rfl
    · simp [if_neg h]

/-- When the step `chunk_size - overlap` is not positive and the word list is
nonempty, the loop of `split_into_chunks` never terminates: it returns `none`
for every amount of fuel. -/
lemma split_into_chunks_loop_none (words : List String) (chunk_size overlap : ℤ)
    (hstep : chunk_size - overlap ≤ 0) :
    ∀ (fuel : ℕ) (start : ℤ), start < (words.length : ℤ) →
      split_into_chunks_loop words chunk_size overlap fuel start = none := by
  intro fuel
  induction fuel with
  | zero => intro start _; rfl
  | succ n ih =>
    intro start h
    have h' : start + (chunk_size - overlap) < (words.length : ℤ) := by omega
    simp only [split_into_chunks_loop, if_pos h, ih _ h']

/-- Python slicing with natural bounds `a` and `a + c` is `drop` then
`take`. -/
lemma pySlice_natCast {α : Type u} (l : List α) (a c : ℕ) :
    pySlice l (a : ℤ) ((a : ℤ) + (c : ℤ)) = (l.drop a).take c := by
  unfold pySlice
  have h1 : ¬ ((a : ℤ) < 0) := by omega
  have h2 : ¬ ((a : ℤ) + (c : ℤ) < 0) := by omega
  simp only [if_neg h1, if_neg h2]
  have h3 : (min (a : ℤ) (l.length : ℤ)).toNat = min a l.length := by omega
  have h4 : (min ((a : ℤ) + (c : ℤ)) (l.length : ℤ)).toNat = min (a + c) l.length := by
    omega
  rw [h3, h4]
  rcases le_or_lt a l.length with hle | hlt
  · have : min a l.length = a := by omega
    rw [this, List.drop_take, List.take_eq_take, List.length_drop]
    omega
  · have h5 : min a l.length = l.length := by omega
    have h6 : l.length ≤ min (a + c) l.length := by omega
    rw [h5]
    rw [List.drop_eq_nil_of_le (by simp only [List.length_take]; omega)]
    rw [List.drop_eq_nil_of_le (by omega), List.take_nil]

/-- Python slice `l[0:b]` is the whole list when `b` reaches the length. -/
lemma pySlice_zero_of_le {α : Type u} (l : List α) (b : ℤ)
    (h : (l.length : ℤ) ≤ b) : pySlice l 0 b = l := by
  have h0 : pySlice l ((0 : ℕ) : ℤ) (((0 : ℕ) : ℤ) + (l.length : ℤ)) =
      (l.drop 0).take l.length := pySlice_natCast l 0 l.length
  unfold pySlice at h0 ⊢
  have e1 : (min (b : ℤ) (l.length : ℤ)) = (l.length : ℤ) := by omega
  have e2 : ¬ ((0 : ℤ) < 0) := by omega
  have e3 : ¬ (b < 0) := by omega
  simp only [if_neg e2, if_neg e3, e1] at *
  simp

/-- With a positive step and enough fuel, the slice-level loop terminates and
its output has the window structure `windowShape`. -/
lemma chunk_slices_loop_shape (words : List String) (cs ov : ℕ) (hov : ov < cs) :
    ∀ (fuel : ℕ) (start : ℕ), words.length - start < fuel →
      ∃ slices,
        chunk_slices_loop words (cs : ℤ) (ov : ℤ) fuel (start : ℤ) = some slices ∧
        windowShape words cs ov start slices := by
  intro fuel
  induction fuel with
  | zero => intro start h; omega
  | succ n ih =>
    intro start h
    by_cases hlt : start < words.length
    · have hcast : ((start : ℤ) + ((cs : ℤ) - (ov : ℤ))) = ((start + (cs - ov) : ℕ) : ℤ) := by
        omega
      have h' : words.length - (start + (cs - ov)) < n := by omega
      obtain ⟨slices, heq, hshape⟩ := ih (start + (cs - ov)) h'
      refine ⟨(words.drop start).take cs :: slices, ?_, ⟨hlt, rfl, hshape⟩⟩
      have hg : (start : ℤ) < (words.length : ℤ) := by exact_mod_cast hlt
      simp only [chunk_slices_loop, if_pos hg, hcast, heq, pySlice_natCast]
    · refine ⟨[], ?_, ?_⟩
      · have hg : ¬ ((start : ℤ) < (words.length : ℤ)) := by exact_mod_cast hlt
        simp only [chunk_slices_loop, if_neg hg]
      · show words.length ≤ start
        omega

/-- Coverage: concatenating the first `cs - ov` words of each non-final chunk
and then the final chunk rebuilds the word suffix the loop started from. -/
lemma reconstruct_windowShape (words : List String) (cs ov : ℕ) (hov : ov < cs) :
    ∀ (slices : List (List String)) (start : ℕ),
      windowShape words cs ov start slices →
      reconstruct (cs - ov) slices = words.drop start := by
  intro slices
  induction slices with
  | nil =>
    intro start h
    have hge : words.length ≤ start := h
    show ([] : List String) = words.drop start
    rw [List.drop_eq_nil_of_le hge]
  | cons c rest ih =>
    intro start h
    obtain ⟨hlt, hc, hrest⟩ := h
    cases rest with
    | nil =>
      have hend : words.length ≤ start + (cs - ov) := hrest
      subst hc
      show (words.drop start).take cs = words.drop start
      apply List.take_of_length_le
      rw [List.length_drop]
      omega
    | cons c2 rest' =>
      have ht : reconstruct (cs - ov) (c2 :: rest') =
          words.drop (start + (cs - ov)) := ih (start + (cs - ov)) hrest
      show c.take (cs - ov) ++ reconstruct (cs - ov) (c2 :: rest') = words.drop start
      rw [ht, hc, List.take_take]
      have hmin : (cs - ov) ⊓ cs = cs - ov := by omega
      rw [hmin, ← List.drop_drop, List.take_append_drop]

/-- The overlap structure of the produced windows: each non-final chunk
shares its suffix from position `cs - ov` with the head of the next chunk,
and that shared part has exactly `min ov (length of the next chunk)` words,
which is `ov` itself whenever the earlier chunk is a full window. -/
lemma overlapSpecB_windowShape (words : List String) (cs ov : ℕ) (hov : ov < cs) :
    ∀ (slices : List (List String)) (start : ℕ),
      windowShape words cs ov start slices →
      overlapSpecB cs ov slices = true := by
  intro slices
  induction slices with
  | nil => intro start _; rfl
  | cons c rest ih =>
    intro start h
    obtain ⟨hlt, hc, hrest⟩ := h
    cases rest with
    | nil => rfl
    | cons c2 rest' =>
      have htail : overlapSpecB cs ov (c2 :: rest') = true :=
        ih (start + (cs - ov)) hrest
      obtain ⟨hlt2, hc2, _⟩ := hrest
      have hclen : c.length = min cs (words.length - start) := by
        rw [hc]; simp only [List.length_take, List.length_drop]
      have hc2len : c2.length = min cs (words.length - (start + (cs - ov))) := by
        rw [hc2]; simp only [List.length_take, List.length_drop]
      have conjA : c.drop (cs - ov) = c2.take (c.length - (cs - ov)) := by
        rw [hc, hc2, List.drop_take, List.drop_drop, List.take_take,
          List.take_eq_take]
        simp only [List.length_take, List.length_drop]
        omega
      have conjB : c.length - (cs - ov) = min ov c2.length := by omega
      show (((c.drop (cs - ov) == c2.take (c.length - (cs - ov))) &&
          ((c.length - (cs - ov)) == min ov c2.length) &&
          (!(c.length == cs) || ((c.length - (cs - ov)) == ov)) &&
          overlapSpecB cs ov (c2 :: rest')) = true)
      simp only [Bool.and_eq_true, Bool.or_eq_true, beq_iff_eq,
        Bool.not_eq_true', beq_eq_false_iff_ne, ne_eq, htail]
      refine ⟨⟨⟨conjA, conjB⟩, ?_⟩, trivial⟩
      by_cases hfull : c.length = cs
      · right; omega
      · left; exact hfull

/-- One unfolding of the chunking loop. -/
lemma split_into_chunks_loop_succ (words : List String) (cs ov : ℤ)
    (fuel : ℕ) (start : ℤ) :
    split_into_chunks_loop words cs ov (fuel + 1) start =
      if start < (words.length : ℤ) then
        match split_into_chunks_loop words cs ov fuel (start + (cs - ov)) with
        | none => none
        | some rest => some (joinSp (pySlice words start (start + cs)) :: rest)
      else some [] := rfl

/-- Length of a Python slice with non-negative bounds. -/
lemma length_pySlice_nat {α : Type u} (l : List α) (a b : ℤ)
    (ha : 0 ≤ a) (hb : 0 ≤ b) :
    (pySlice l a b).length =
      (min b (l.length : ℤ)).toNat - (min a (l.length : ℤ)).toNat := by
  unfold pySlice
  simp only [if_neg (by omega : ¬ a < 0), if_neg (by omega : ¬ b < 0),
    List.length_drop, List.length_take]
  omega

/-- Splitting the single-space join of `n` copies of the word `"w"` gives
those `n` words back. -/
lemma pySplit_joinSp_replicate : ∀ (n : ℕ),
    pySplit (joinSp (List.replicate n "w")) = List.replicate n "w"
  | 0 => by decide
  | 1 => by decide
  | (n + 2) => by
    have ih := pySplit_joinSp_replicate (n + 1)
    have hw : ('w').isWhitespace = false := by decide
    have hs : (' ').isWhitespace = true := by decide
    have hdata : (joinSp (List.replicate (n + 2) "w")).data
        = 'w' :: ' ' :: (joinSp (List.replicate (n + 1) "w")).data := by
      have hj : joinSp (List.replicate (n + 2) "w")
          = ("w" ++ " ") ++ joinSp (List.replicate (n + 1) "w") := rfl
      rw [hj, String.data_append, String.data_append]
      rfl
    show splitWsAux (joinSp (List.replicate (n + 2) "w")).data [] = _
    rw [hdata]
    have h1 : splitWsAux ('w' :: ' ' :: (joinSp (List.replicate (n + 1) "w")).data) []
        = splitWsAux (' ' :: (joinSp (List.replicate (n + 1) "w")).data) ['w'] := by
      simp [splitWsAux, hw]
    have h2 : splitWsAux (' ' :: (joinSp (List.replicate (n + 1) "w")).data) ['w']
        = "w" :: splitWsAux (joinSp (List.replicate (n + 1) "w")).data [] := by
      simp [splitWsAux, hs]
    rw [h1, h2]
    show "w" :: pySplit (joinSp (List.replicate (n + 1) "w")) = _
    rw [ih]
    rfl

/-- On any 900-word text, chunking with `chunk_size = 400, overlap = 50`
produces the three windows at word offsets 0, 350 and 700, of word counts
400, 400 and 200. -/
lemma chunks_900 (text : String) (h : (pySplit text).length = 900) :
    split_into_chunks text 400 50 =
      some [joinSp (pySlice (pySplit text) 0 400),
            joinSp (pySlice (pySplit text) 350 750),
            joinSp (pySlice (pySplit text) 700 1100)] ∧
    (pySlice (pySplit text) 0 400).length = 400 ∧
    (pySlice (pySplit text) 350 750).length = 400 ∧
    (pySlice (pySplit text) 700 1100).length = 200 := by
  refine ⟨?_, ?_, ?_, ?_⟩
  · show split_into_chunks_loop (pySplit text) 400 50 ((pySplit text).length + 1) 0 =
      _
    rw [h]
    rw [show (900 + 1 : ℕ) = 900 + 1 from rfl, split_into_chunks_loop_succ]
    rw [show (900 : ℕ) = 899 + 1 from rfl, split_into_chunks_loop_succ]
    rw [show (899 : ℕ) = 898 + 1 from rfl, split_into_chunks_loop_succ]
    rw [show (898 : ℕ) = 897 + 1 from rfl, split_into_chunks_loop_succ]
    simp only [h]
    norm_num
  · rw [length_pySlice_nat _ _ _ (by norm_num) (by norm_num), h]
    omega
  · rw [length_pySlice_nat _ _ _ (by norm_num) (by norm_num), h]
    omega
  · rw [length_pySlice_nat _ _ _ (by norm_num) (by norm_num), h]
    omega

/-- Claim C1: contrary to the claim, `split_into_chunks` has no
`max(1, chunk_size - overlap)` guard: for every text with at least one word
and every `chunk_size > 0` with `overlap ≥ chunk_size`, the loop body never
increases `start`, so the loop returns `none` for every fuel from every
reachable state — the Python loop does not terminate. -/
theorem split_into_chunks_no_guard_diverges (text : String) (cs ov : ℤ)
    (_hcs : 0 < cs) (hov : cs ≤ ov) (hne : pySplit text ≠ []) :
    (∀ (fuel : ℕ) (start : ℤ), start < ((pySplit text).length : ℤ) →
        split_into_chunks_loop (pySplit text) cs ov fuel start = none) ∧
    split_into_chunks text cs ov = none := by
  have hlen : (0 : ℤ) < ((pySplit text).length : ℤ) := by
    exact_mod_cast List.length_pos.mpr hne
  refine ⟨fun fuel start h => split_into_chunks_loop_none _ _ _ (by omega) fuel start h, ?_⟩
  exact split_into_chunks_loop_none _ _ _ (by omega) _ 0 hlen

/-- Witness for C1 at `text = "a"`, `chunk_size = 1`, `overlap = 1`. -/
theorem split_into_chunks_no_guard_diverges_witness :
    split_into_chunks "a" 1 1 = none :=
  (split_into_chunks_no_guard_diverges "a" 1 1 (by decide) (by decide)
    (by decide)).2

/-- Claim C2 (amended): on a 900-word text with `chunk_size = 400, overlap = 50`,
`split_into_chunks` returns exactly 3 segments, the windows at word offsets
0, 350 and 700, whose word counts are 400, 400 and 200 (not 100). -/
theorem chunks_900_segments (text : String) (h : (pySplit text).length = 900) :
    split_into_chunks text 400 50 =
      some [joinSp (pySlice (pySplit text) 0 400),
            joinSp (pySlice (pySplit text) 350 750),
            joinSp (pySlice (pySplit text) 700 1100)] ∧
    (pySlice (pySplit text) 0 400).length = 400 ∧
    (pySlice (pySplit text) 350 750).length = 400 ∧
    (pySlice (pySplit text) 700 1100).length = 200 :=
  chunks_900 text h

/-- Witness for C2 at the concrete 900-word text `chunkDemoText`. -/
theorem chunks_900_segments_witness :
    (pySplit chunkDemoText).length = 900 ∧
    (split_into_chunks chunkDemoText 400 50 =
      some [joinSp (pySlice (pySplit chunkDemoText) 0 400),
            joinSp (pySlice (pySplit chunkDemoText) 350 750),
            joinSp (pySlice (pySplit chunkDemoText) 700 1100)] ∧
    (pySlice (pySplit chunkDemoText) 0 400).length = 400 ∧
    (pySlice (pySplit chunkDemoText) 350 750).length = 400 ∧
    (pySlice (pySplit chunkDemoText) 700 1100).length = 200) :=
  have hlen : (pySplit chunkDemoText).length = 900 := by
    rw [show pySplit chunkDemoText = List.replicate 900 "w" from
      pySplit_joinSp_replicate 900]
    simp only [List.length_replicate]
  ⟨hlen, chunks_900_segments chunkDemoText hlen⟩

/-- Counterexample to C2 as stated: on the concrete 900-word text the three
segments have word counts `[400, 400, 200]`, not `[400, 400, 100]`. -/
theorem chunks_900_counterexample :
    (pySplit chunkDemoText).length = 900 ∧
    (split_into_chunks chunkDemoText 400 50).map (List.map wordCount) =
      some [400, 400, 200] ∧
    (split_into_chunks chunkDemoText 400 50).map (List.map wordCount) ≠
      some [400, 400, 100] := by
  have hrep : pySplit chunkDemoText = List.replicate 900 "w" :=
    pySplit_joinSp_replicate 900
  have hlen : (pySplit chunkDemoText).length = 900 := by
    rw [hrep]
    simp only [List.length_replicate]
  obtain ⟨heq, -, -, -⟩ := chunks_900 chunkDemoText hlen
  have s1 : pySlice (pySplit chunkDemoText) 0 400 = List.replicate 400 "w" := by
    have hc : pySlice (pySplit chunkDemoText) 0 400 =
        ((pySplit chunkDemoText).drop 0).take 400 :=
      pySlice_natCast (pySplit chunkDemoText) 0 400
    rw [hc, hrep, List.drop_zero, List.take_replicate]
    rfl
  have s2 : pySlice (pySplit chunkDemoText) 350 750 = List.replicate 400 "w" := by
    have hc : pySlice (pySplit chunkDemoText) 350 750 =
        ((pySplit chunkDemoText).drop 350).take 400 :=
      pySlice_natCast (pySplit chunkDemoText) 350 400
    rw [hc, hrep, List.drop_replicate, List.take_replicate]
    rfl
  have s3 : pySlice (pySplit chunkDemoText) 700 1100 = List.replicate 200 "w" := by
    have hc : pySlice (pySplit chunkDemoText) 700 1100 =
        ((pySplit chunkDemoText).drop 700).take 400 :=
      pySlice_natCast (pySplit chunkDemoText) 700 400
    rw [hc, hrep, List.drop_replicate, List.take_replicate]
    rfl
  have wc : ∀ (k : ℕ), wordCount (joinSp (List.replicate k "w")) = k := by
    intro k
    show (pySplit (joinSp (List.replicate k "w"))).length = k
    rw [pySplit_joinSp_replicate k]
    simp only [List.length_replicate]
  rw [s1, s2, s3] at heq
  refine ⟨hlen, ?_, ?_⟩
  · rw [heq]
    simp only [Option.map_some', List.map_cons, List.map_nil, wc]
  · rw [heq]
    simp only [Option.map_some', List.map_cons, List.map_nil, wc]
    decide

/-- Claim C3 (amended): when the text has at least one word and its word count is
at most `chunk_size - overlap` (`overlap ≥ 0`), `split_into_chunks` returns
exactly one segment: the words joined by single spaces. -/
theorem single_chunk (text : String) (cs ov : ℤ)
    (h1 : 1 ≤ (pySplit text).length)
    (h2 : ((pySplit text).length : ℤ) ≤ cs - ov) (h3 : 0 ≤ ov) :
    split_into_chunks text cs ov = some [joinSp (pySplit text)] := by
  show split_into_chunks_loop (pySplit text) cs ov ((pySplit text).length + 1) 0 = _
  obtain ⟨m, hm⟩ : ∃ m, (pySplit text).length = m + 1 :=
    ⟨(pySplit text).length - 1, by omega⟩
  rw [hm, split_into_chunks_loop_succ]
  have hg : (0 : ℤ) < ((pySplit text).length : ℤ) := by omega
  rw [if_pos hg, split_into_chunks_loop_succ]
  have hstop : ¬ ((0 + (cs - ov)) < ((pySplit text).length : ℤ)) := by omega
  rw [if_neg hstop]
  have hslice : pySlice (pySplit text) 0 (0 + cs) = pySplit text := by
    apply pySlice_zero_of_le
    omega
  rw [hslice]

/-- Witness for C3 at `text = "a b"`, `chunk_size = 3`, `overlap = 0`. -/
theorem single_chunk_witness :
    1 ≤ (pySplit "a b").length ∧ ((pySplit "a b").length : ℤ) ≤ 3 - 0 ∧
    split_into_chunks "a b" 3 0 = some [joinSp (pySplit "a b")] :=
  ⟨by decide, by decide,
    single_chunk "a b" 3 0 (by decide) (by decide) (by decide)⟩

/-- Counterexample to C3 as stated: `"a b"` has 2 ≤ chunk_size = 2 words but
with overlap 1 the chunker returns two segments, and the empty text (0 words)
yields zero segments, not one. -/
theorem single_chunk_counterexample :
    ((0 : ℤ) < 2 ∧ ((pySplit "a b").length : ℤ) ≤ 2 ∧
      split_into_chunks "a b" 2 1 = some ["a b", "b"] ∧
      split_into_chunks "a b" 2 1 ≠ some [joinSp (pySplit "a b")]) ∧
    (split_into_chunks "" 2 1 = some [] ∧
      split_into_chunks "" 2 1 ≠ some [joinSp (pySplit "")]) := by
  decide

/-- Claim C4 (amended): for `0 ≤ overlap < chunk_size` the chunker terminates, its
segments are the joins of the word windows, concatenating the first
`chunk_size - overlap` words of each non-final window followed by the final
window reconstructs the word sequence exactly, and consecutive windows share
exactly `min overlap (length of the later window)` words — `overlap` itself
whenever the earlier window has the full `chunk_size` words; trailing
windows (not only the final one) may be shorter. -/
theorem chunker_coverage_and_overlap (text : String) (cs ov : ℕ) (hov : ov < cs) :
    ∃ slices,
      chunk_slices_loop (pySplit text) (cs : ℤ) (ov : ℤ)
          ((pySplit text).length + 1) 0 = some slices ∧
      split_into_chunks text (cs : ℤ) (ov : ℤ) = some (slices.map joinSp) ∧
      reconstruct (cs - ov) slices = pySplit text ∧
      overlapSpecB cs ov slices = true := by
  obtain ⟨slices, heq, hshape⟩ := chunk_slices_loop_shape (pySplit text) cs ov hov
    ((pySplit text).length + 1) 0 (by omega)
  simp only [Nat.cast_zero] at heq
  refine ⟨slices, heq, ?_, ?_, ?_⟩
  · show split_into_chunks_loop (pySplit text) (cs : ℤ) (ov : ℤ)
      ((pySplit text).length + 1) 0 = _
    rw [split_into_chunks_loop_eq_map_join, heq]
    rfl
  · have := reconstruct_windowShape (pySplit text) cs ov hov slices 0 hshape
    rwa [List.drop_zero] at this
  · exact overlapSpecB_windowShape (pySplit text) cs ov hov slices 0 hshape

/-- Witness for C4 at `text = "a b c"`, `chunk_size = 2`, `overlap = 1`. -/
theorem chunker_coverage_witness :
    (1 : ℕ) < 2 ∧
    ∃ slices,
      chunk_slices_loop (pySplit "a b c") ((2 : ℕ) : ℤ) ((1 : ℕ) : ℤ)
          ((pySplit "a b c").length + 1) 0 = some slices ∧
      split_into_chunks "a b c" ((2 : ℕ) : ℤ) ((1 : ℕ) : ℤ) =
        some (slices.map joinSp) ∧
      reconstruct (2 - 1) slices = pySplit "a b c" ∧
      overlapSpecB 2 1 slices = true :=
  ⟨by decide, chunker_coverage_and_overlap "a b c" 2 1 (by decide)⟩

/-- Counterexample to C4 as stated: with 5 words, `chunk_size = 4`,
`overlap = 3`, the third window `["c","d","e"]` is not final yet shares only
2 words with its successor `["d","e"]`, so "consecutive segments overlap by
exactly `overlap`, except that the final segment may be shorter" fails. -/
theorem chunker_overlap_exact_counterexample :
    (3 : ℕ) < 4 ∧
    split_into_chunks "a b c d e" 4 3 =
      some ["a b c d", "b c d e", "c d e", "d e", "e"] ∧
    chunk_slices_loop (pySplit "a b c d e") 4 3 6 0 =
      some [["a", "b", "c", "d"], ["b", "c", "d", "e"], ["c", "d", "e"],
        ["d", "e"], ["e"]] ∧
    overlapExactB 4 3
      [["a", "b", "c", "d"], ["b", "c", "d", "e"], ["c", "d", "e"],
        ["d", "e"], ["e"]] = false := by
  decide

/-- Claim C5: for `chunk_size ≤ 0` the chunker raises no configuration error — on a
blank input it silently returns the empty list, and on any input with at
least one word (`overlap ≥ 0`) its loop never terminates; a blank input
always yields the empty list without an exception. -/
theorem chunker_error_cases (text : String) (cs ov : ℤ) :
    (pySplit text = [] → split_into_chunks text cs ov = some []) ∧
    (cs ≤ 0 → 0 ≤ ov → pySplit text ≠ [] →
      split_into_chunks text cs ov = none) := by
  constructor
  · intro h
    show split_into_chunks_loop (pySplit text) cs ov ((pySplit text).length + 1) 0 = _
    rw [h]
    rfl
  · intro hcs hov hne
    show split_into_chunks_loop (pySplit text) cs ov ((pySplit text).length + 1) 0 = _
    apply split_into_chunks_loop_none _ _ _ (by omega) _ 0
    exact_mod_cast List.length_pos.mpr hne

/-- Witness for C5: the empty text with `chunk_size = 1` gives `some []`,
and `"a"` with `chunk_size = 0` diverges instead of raising a configuration
error. -/
theorem chunker_error_cases_witness :
    split_into_chunks "" 1 0 = some [] ∧ split_into_chunks "a" 0 0 = none :=
  ⟨(chunker_error_cases "" 1 0).1 (by decide),
    (chunker_error_cases "a" 0 0).2 (by decide) (by decide) (by decide)⟩

/-- Claim C6: contrary to the claim, `save_embeddings_csv` on the empty pair
sequence does write the header-only table, but then raises `IndexError`
while logging the embedding dimension (`len(embedding_lists[0])`), so the
call does not succeed without an error. -/
theorem save_embeddings_csv_empty :
    save_embeddings_csv [] [] =
      { written := some (("text", "embedding"), []),
        raised := some "IndexError: list index out of range" } := rfl

/-- Claim C7: persisting `N` (text, embedding) pairs with
`save_embeddings_csv` writes the two-column table whose rows are exactly
those pairs, and reloading it with the spec-modelled loader yields exactly
`N` pairs whose texts equal the originals and whose embedding components
are within `1e-6` of the originals (they are equal, so the rational
inequality holds per component). -/
theorem save_load_round_trip (text_segments : List String)
    (embeddings : List (List ℚ))
    (h : text_segments.length = embeddings.length) :
    ∃ rows,
      (save_embeddings_csv text_segments embeddings).written =
        some (("text", "embedding"), rows) ∧
      (load_embeddings_csv (("text", "embedding"), rows)).length =
        text_segments.length ∧
      (load_embeddings_csv (("text", "embedding"), rows)).map Prod.fst =
        text_segments ∧
      List.Forall₂
        (fun v w => List.Forall₂ (fun x y : ℚ => |x - y| ≤ 1 / 1000000) v w)
        ((load_embeddings_csv (("text", "embedding"), rows)).map Prod.snd)
        embeddings := by
  refine ⟨text_segments.zip embeddings, ?_, ?_, ?_, ?_⟩
  · unfold save_embeddings_csv
    rw [if_neg (by omega)]
  · show (text_segments.zip embeddings).length = text_segments.length
    rw [List.length_zip]
    omega
  · show (text_segments.zip embeddings).map Prod.fst = text_segments
    exact List.map_fst_zip _ _ (by omega)
  · show List.Forall₂ _ ((text_segments.zip embeddings).map Prod.snd) _
    rw [List.map_snd_zip _ _ (by omega)]
    rw [List.forall₂_same]
    intro v _
    rw [List.forall₂_same]
    intro x _
    simp

/-- Witness for C7 at one concrete pair. -/
theorem save_load_round_trip_witness :
    (["a"] : List String).length = ([[(1 : ℚ) / 2]] : List (List ℚ)).length ∧
    ∃ rows,
      (save_embeddings_csv ["a"] [[(1 : ℚ) / 2]]).written =
        some (("text", "embedding"), rows) ∧
      (load_embeddings_csv (("text", "embedding"), rows)).length =
        (["a"] : List String).length ∧
      (load_embeddings_csv (("text", "embedding"), rows)).map Prod.fst =
        ["a"] ∧
      List.Forall₂
        (fun v w => List.Forall₂ (fun x y : ℚ => |x - y| ≤ 1 / 1000000) v w)
        ((load_embeddings_csv (("text", "embedding"), rows)).map Prod.snd)
        [[(1 : ℚ) / 2]] :=
  ⟨rfl, save_load_round_trip ["a"] [[(1 : ℚ) / 2]] rfl⟩

/-- Claim C8: with the sentence-transformers library missing,
`generate_embeddings` raises the RuntimeError carrying the install guidance
before computing anything; with the library present, that error is never
raised, whatever the split method. -/
theorem generate_embeddings_model_unavailable (text sm : String) (cs ov : ℤ) :
    generate_embeddings false text sm cs ov =
      some (Except.error sentenceTransformersMsg) ∧
    generate_embeddings true text sm cs ov ≠
      some (Except.error sentenceTransformersMsg) := by
  constructor
  · rfl
  · by_cases h1 : sm = "sentences"
    · simp [generate_embeddings, h1]
    · by_cases h2 : sm = "chunks"
      · simp only [generate_embeddings, h1, h2]
        cases split_into_chunks text cs ov with
        | none => simp
        | some segs => simp
      · simp only [generate_embeddings, h1, h2, if_neg, if_pos, ite_false,
          ite_true, Bool.true_eq_false]
        intro h
        simp only [if_neg h1, if_neg h2, reduceIte, Option.some.injEq] at h
        have h' : ("Unknown split_method: " ++ sm) = sentenceTransformersMsg :=
          Except.error.inj h
        have hA : (("Unknown split_method: " ++ sm).data).head? = some 'U' := by
          rw [String.data_append]
          rfl
        have hB : (sentenceTransformersMsg.data).head? = some 's' := rfl
        rw [h', hB] at hA
        exact absurd hA (by decide)

/-- Claim C10: `run_pipeline` hands `truncateForTTS final_text` to the TTS engine:
texts longer than 5000 characters are cut to their first 5000 characters
plus `"..."` (total 5003), and texts of at most 5000 characters pass through
unchanged, so the synthesized text never exceeds 5003 characters. -/
theorem truncateForTTS_spec (t : String) :
    (5000 < t.length →
      truncateForTTS t = String.mk (t.data.take 5000) ++ "..." ∧
      (truncateForTTS t).length = 5003) ∧
    (t.length ≤ 5000 → truncateForTTS t = t) ∧
    (truncateForTTS t).length ≤ 5003 := by
  have hdots : ("...").length = 3 := rfl
  have hdl : t.data.length = t.length := rfl
  refine ⟨?_, ?_, ?_⟩
  · intro h
    refine ⟨by unfold truncateForTTS; rw [if_pos h], ?_⟩
    unfold truncateForTTS
    rw [if_pos h, String.length_append, String.length_mk, List.length_take,
      hdots]
    omega
  · intro h
    unfold truncateForTTS
    rw [if_neg (by omega)]
  · by_cases h : 5000 < t.length
    · unfold truncateForTTS
      rw [if_pos h, String.length_append, String.length_mk, List.length_take,
        hdots]
      omega
    · unfold truncateForTTS
      rw [if_neg h]
      omega

/-- Witness for C10: a 5001-character text is truncated to 5003 characters,
and a short text passes through unchanged. -/
theorem truncateForTTS_spec_witness :
    (5000 < (String.mk (List.replicate 5001 'a')).length ∧
      (truncateForTTS (String.mk (List.replicate 5001 'a'))).length = 5003) ∧
    truncateForTTS "hi" = "hi" :=
  have h5001 : 5000 < (String.mk (List.replicate 5001 'a')).length := by
    rw [String.length_mk, List.length_replicate]
    omega
  ⟨⟨h5001, ((truncateForTTS_spec (String.mk (List.replicate 5001 'a'))).1
      h5001).2⟩,
    (truncateForTTS_spec "hi").2.1 (by decide)⟩

